import Mathlib

/-!
A verification development for the `sqlite-ai-pubtools` utilities
(`sqlitereports.py` and `sqlitewiki.py`).  The Python functions are shallowly
embedded as Lean functions; the SQLite statements they issue are embedded by
their documented semantics (untyped columns, REPLACE, CAST AS FLOAT, ORDER BY,
LIMIT, single-commit transactions).  SQLite REAL values are modelled as exact
decimals `man / 10 ^ exp`; this abstracts the final double rounding, which is
exact for the money-style values this program manipulates.
-/

/-- A SQLite REAL value, modelled as the exact decimal `man / 10 ^ exp`.
A value is kept normalised: either `exp = 0` or `man` is not divisible
by 10, so each decimal has one representation. -/
structure DecReal where
  man : Int
  exp : Nat
deriving DecidableEq, Repr

/-- Normalise `m / 10 ^ k` by stripping factors of 10. -/
def normDec : Int → Nat → DecReal
  | m, 0 => ⟨m, 0⟩
  | m, k + 1 => if m % 10 = 0 then normDec (m / 10) k else ⟨m, k + 1⟩

/-- The character for a decimal digit `d < 10`. -/
def digitChar (d : Nat) : Char := Char.ofNat (48 + d)

/-- The numeric value of a digit character. -/
def digitVal (c : Char) : Nat := c.toNat - 48

/-- Digit accumulation with enough fuel; `fuel ≥ n` makes it total. -/
def natDigitsAux : Nat → Nat → List Char
  | 0, _ => []
  | fuel + 1, n => if n = 0 then [] else digitChar (n % 10) :: natDigitsAux fuel (n / 10)

/-- Decimal digits of `n`, least significant first (empty for 0). -/
def natDigitsRev (n : Nat) : List Char := natDigitsAux n n

/-- Decimal digits of `n`, most significant first; `"0"` for 0. -/
def natDigits (n : Nat) : List Char :=
  if n = 0 then ['0'] else (natDigitsRev n).reverse

/-- SQLite's text rendering of a REAL value: always shows a decimal point,
e.g. `1200.0`, `300.5`, `-0.05`.  Defined on normalised `DecReal`s. -/
def renderDec (d : DecReal) : String :=
  let sign := if d.man < 0 then "-" else ""
  let ds := natDigits d.man.natAbs
  if d.exp = 0 then
    sign ++ String.mk ds ++ ".0"
  else
    let padded := List.replicate (d.exp + 1 - ds.length) '0' ++ ds
    sign ++ String.mk (padded.take (padded.length - d.exp)) ++ "." ++
      String.mk (padded.drop (padded.length - d.exp))

/-- Take the longest run of decimal digits from the front of a character
list, returning the digits and the remainder. -/
def takeDigits : List Char → List Char × List Char
  | [] => ([], [])
  | c :: cs =>
    if c.isDigit then
      let p := takeDigits cs
      (c :: p.1, p.2)
    else ([], c :: cs)

/-- The numeric value of a most-significant-first digit string. -/
def digitsToNat (ds : List Char) : Nat :=
  ds.foldl (fun a c => a * 10 + digitVal c) 0

/-- Parse `digits [ . digits ]` from the front of a character list.
Returns `(all mantissa digits as a number, number of fraction digits,
remainder)`; `none` when no digit is present (then SQLite yields 0.0). -/
def parseMantissa (cs : List Char) : Option (Nat × Nat × List Char) :=
  let p := takeDigits cs
  match p.2 with
  | '.' :: r2 =>
    let q := takeDigits r2
    if p.1 = [] ∧ q.1 = [] then none
    else some (digitsToNat (p.1 ++ q.1), q.1.length, q.2)
  | r1 => if p.1 = [] then none else some (digitsToNat p.1, 0, r1)

/-- Parse an optional exponent part `e[+|-]digits`; `none` when absent or
incomplete (an incomplete exponent is simply not part of the numeric value). -/
def parseExpPart : List Char → Option Int
  | [] => none
  | c :: r =>
    if c = 'e' ∨ c = 'E' then
      let sp : Int × List Char :=
        match r with
        | '+' :: r2 => (1, r2)
        | '-' :: r2 => (-1, r2)
        | _ => (1, r)
      let q := takeDigits sp.2
      if q.1 = [] then none else some (sp.1 * (digitsToNat q.1 : Int))
    else none

/-- Apply an optional decimal exponent to `m / 10 ^ k` and normalise. -/
def scaleDec (m : Int) (k : Nat) : Option Int → DecReal
  | none => normDec m k
  | some e => if 0 ≤ e then normDec (m * 10 ^ e.toNat) k else normDec m (k + (-e).toNat)

/-- Consume an optional leading sign, yielding the sign and the remainder. -/
def splitSign : List Char → Int × List Char
  | [] => (1, [])
  | c :: r => if c = '+' then (1, r) else if c = '-' then (-1, r) else (1, c :: r)

/-- SQLite text-to-REAL conversion, as performed by `CAST(x AS FLOAT)` on a
TEXT operand: leading whitespace is skipped, the longest numeric run
(sign, digits, decimal point, exponent) is converted, and the result is
0.0 when no numeric run is present.  The double result is modelled as an
exact decimal. -/
def textToReal (s : String) : DecReal :=
  let sg := splitSign (s.data.dropWhile (fun c => c.isWhitespace))
  match parseMantissa sg.2 with
  | none => ⟨0, 0⟩
  | some t => scaleDec (sg.1 * (t.1 : Int)) t.2.1 (parseExpPart t.2.2)

/-- A SQLite storage value as it occurs in this program: TEXT (every value
inserted by the loader) or REAL (produced by coercion).  The columns of the
`data` table are declared without a type, so stored values keep these
classes; NULL, INTEGER and BLOB never arise here. -/
inductive SQLVal where
  | text : String → SQLVal
  | real : DecReal → SQLVal
deriving DecidableEq, Repr

/-- The TEXT rendering of a value, as used by SQLite when a TEXT operand is
needed (e.g. by REPLACE). -/
def valToText : SQLVal → String
  | .text s => s
  | .real d => renderDec d

/-- SQL `REPLACE(x, y, '')` for a single-character pattern `y`, the only
shape used by `convert_dollar_amount_to_float`: the operand is converted to
TEXT and every occurrence of the character is removed. -/
def removeChar (c : Char) (v : SQLVal) : SQLVal :=
  SQLVal.text (String.mk ((valToText v).data.filter (fun x => x ≠ c)))

/-- SQL `CAST(x AS FLOAT)`. -/
def castFloat (v : SQLVal) : SQLVal := SQLVal.real (textToReal (valToText v))

/-- SQLite BINARY collation on TEXT: pointwise comparison of the character
sequences (codepoint order agrees with byte order on UTF-8). -/
def charsLe : List Char → List Char → Bool
  | [], _ => true
  | _ :: _, [] => false
  | a :: as, b :: bs => if a = b then charsLe as bs else Nat.blt a.toNat b.toNat

/-- `a ≤ b` for strings under BINARY collation. -/
def strLe (a b : String) : Bool := charsLe a.data b.data

/-- `a ≤ b` for exact-decimal REALs: `ma / 10^ea ≤ mb / 10^eb`. -/
def decRealLe (a b : DecReal) : Bool :=
  decide (a.man * 10 ^ b.exp ≤ b.man * 10 ^ a.exp)

/-- SQLite ordering of storage values as used by ORDER BY: every REAL sorts
before every TEXT; REALs compare numerically, TEXTs under BINARY collation.
(NULL, INTEGER and BLOB never occur in this program.) -/
def SQLVal.le : SQLVal → SQLVal → Bool
  | .real a, .real b => decRealLe a b
  | .real _, .text _ => true
  | .text _, .real _ => false
  | .text a, .text b => strLe a b

/-- A SQLite table: the declared column names and the stored rows.  Columns
are created without a type, so a stored value is whatever was assigned. -/
structure Table where
  cols : List String
  rows : List (List SQLVal)
deriving DecidableEq, Repr

/-- A SQLite database file: the tables it contains, keyed by name. -/
abbrev DB := List (String × Table)

/-- Look a table up by name. -/
def dbLookup : DB → String → Option Table
  | [], _ => none
  | (k, t) :: rest, n => if k = n then some t else dbLookup rest n

/-- Replace the (first) table of the given name. -/
def dbSet : DB → String → Table → DB
  | [], _, _ => []
  | (k, u) :: rest, n, t => if k = n then (k, t) :: rest else (k, u) :: dbSet rest n t

/-- ASCII lower-casing of one character, as SQLite applies to unquoted
identifiers. -/
def asciiLower (c : Char) : Char :=
  if 'A' ≤ c ∧ c ≤ 'Z' then Char.ofNat (c.toNat + 32) else c

/-- SQLite's identifier comparison: unquoted column names match
case-insensitively over the ASCII letters. -/
def sqlNameEq (a b : String) : Bool :=
  a.data.map asciiLower = b.data.map asciiLower

/-- Position of a column name in a column list by exact match.  SQLite
resolves identifiers case-insensitively (`sqlNameEq`); this development
only invokes resolution where exact matching agrees with SQLite: either
the exact-case column is known to be present (an exact match is a SQLite
match) or — in `c10_missing_designated_columns` — no column matches even
case-insensitively, so both resolutions fail. -/
def colIndex : List String → String → Option Nat
  | [], _ => none
  | x :: xs, c => if x = c then some 0 else (colIndex xs c).map (fun i => i + 1)

/-- One statement `UPDATE data SET c = f(c)`: applies `f` to the column's
value in every row; fails (`no such column`) when `c` is not a column. -/
def updateColumn (t : Table) (c : String) (f : SQLVal → SQLVal) : Option Table :=
  match colIndex t.cols c with
  | none => none
  | some i => some { cols := t.cols, rows := t.rows.map (fun r => List.modify f i r) }

/-- The three UPDATE statements `convert_dollar_amount_to_float` issues for
one column: strip `'$'`, strip `','`, then `CAST` to FLOAT. -/
def coerceColumn (t : Table) (c : String) : Option Table :=
  (updateColumn t c (removeChar '$')).bind fun t1 =>
  (updateColumn t1 c (removeChar ',')).bind fun t2 =>
  updateColumn t2 c castFloat

/-- The `for column in columns` loop of `convert_dollar_amount_to_float`. -/
def coerceColumns : Table → List String → Option Table
  | t, [] => some t
  | t, c :: cs =>
    match coerceColumn t c with
    | none => none
    | some t1 => coerceColumns t1 cs

/-- The default (and only) value of the mutable-default `columns` argument. -/
def defaultCoercionColumns : List String := ["Commission_Earned", "Sales"]

/-- `convert_dollar_amount_to_float(db, columns)`: runs the per-column
UPDATE statements against the `data` table and commits once at the end, so
on any failure (missing table or missing column) nothing is persisted and
the database is unchanged; the error propagates to the caller. -/
def convert_dollar_amount_to_float (db : DB)
    (columns : List String := defaultCoercionColumns) : DB × Option String :=
  match columns with
  | [] => (db, none)
  | _ :: _ =>
    match dbLookup db "data" with
    | none => (db, some "no such table: data")
    | some t =>
      match coerceColumns t columns with
      | none => (db, some "no such column")
      | some t1 => (dbSet db "data" t1, none)

/-- A CSV row: an ordered sequence of string fields. -/
abbrev Row := List String

/-- A CSV file in the reports directory: its file name and parsed rows.
The `csv` writer/reader round trip through the temporary file is the
identity on rows, so files are modelled directly by their rows. -/
structure CSVFile where
  name : String
  rows : List Row
deriving DecidableEq, Repr

/-- A reports directory; `none` models a missing or unreadable directory
(where `glob.glob` silently produces no matches). -/
abbrev ReportsDir := Option (List CSVFile)

/-- `get_csv_files(reports)`: the `glob.glob(f"{reports}/*.csv")` matches —
the directory entries whose names match `*.csv` (i.e. end in `.csv`), or
nothing when the directory is missing or unreadable. -/
def get_csv_files (reports : ReportsDir) : List CSVFile :=
  match reports with
  | none => []
  | some entries => entries.filter (fun f => ".csv".data.isSuffixOf f.name.data)

/-- `get_combined_csv_file(reports)`: every row of every discovered file,
concatenated in discovery order into one row stream. -/
def get_combined_csv_file (reports : ReportsDir) : List Row :=
  ((get_csv_files reports).map (fun f => f.rows)).flatten

/-- `convert_header_name(header_name)`: spaces become underscores.  The
Python `replace(" ", "_")` has a one-character pattern and replacement, so
it is exactly a character-wise substitution. -/
def convert_header_name (header_name : String) : String :=
  String.mk (header_name.data.map (fun c => if c = ' ' then '_' else c))

/-- The `printcsv` command: prints every row of the combined stream. -/
def print_csv (reports : ReportsDir) : List Row :=
  get_combined_csv_file reports

/-- The insert loop of `import_csv_to_sqlite`: each row is bound
positionally with as many placeholders as the row has fields, so SQLite
rejects any row whose field count differs from the table's column count
and the error aborts the loop; on success every field is stored as TEXT. -/
def insertRows (header : List String) : List Row → Option (List (List SQLVal))
  | [] => some []
  | r :: rs =>
    if r.length = header.length then
      (insertRows header rs).map (fun tl => r.map SQLVal.text :: tl)
    else none

/-- `import_csv_to_sqlite(db, reports)`.  The first combined row (normalised
by `convert_header_name`) names the columns of a freshly created table
`data`; `CREATE TABLE` runs in autocommit and fails if `data` already
exists; the inserts run inside one transaction committed only after the
loop, so an aborted load persists the created table with no rows; after the
commit the coercion step runs on its own connection. -/
def import_csv_to_sqlite (db : DB) (reports : ReportsDir) : DB × Option String :=
  match get_combined_csv_file reports with
  | [] => (db, some "StopIteration")
  | headerRow :: dataRows =>
    let header := headerRow.map convert_header_name
    if header = [] then (db, some "incomplete input")
    else if (dbLookup db "data").isSome then (db, some "table data already exists")
    else
      let created := db ++ [("data", ⟨header, []⟩)]
      match insertRows header dataRows with
      | none => (created, some "table data has wrong number of values")
      | some rs => convert_dollar_amount_to_float (dbSet created "data" ⟨header, rs⟩)

/-- The descending comparison used by `ORDER BY Commission_Earned DESC` on
projected `(Title, Commission_Earned)` pairs. -/
def sqlDescRel (a b : SQLVal × SQLVal) : Prop := SQLVal.le b.2 a.2 = true

instance : DecidableRel sqlDescRel := fun _ _ => inferInstanceAs (Decidable (_ = true))

/-- `get_top_revenue_generating_products(db, limit)`: `SELECT Title,
Commission_Earned FROM data ORDER BY Commission_Earned DESC LIMIT limit`.
The sort is modelled by insertion sort; SQLite fixes only sortedness, not
the permutation on ties. -/
def get_top_revenue_generating_products (db : DB) (limit : Nat := 10) :
    Except String (List (SQLVal × SQLVal)) :=
  match dbLookup db "data" with
  | none => Except.error "no such table: data"
  | some t =>
    match colIndex t.cols "Title", colIndex t.cols "Commission_Earned" with
    | some i, some j =>
      Except.ok ((List.insertionSort sqlDescRel
        (t.rows.map (fun r => (r.getD i (SQLVal.text ""), r.getD j (SQLVal.text ""))))).take limit)
    | _, _ => Except.error "no such column"

/-- The wiki tool's database: tables keyed by name, each a list of stored
`content` values. -/
abbrev WikiDB := List (String × List String)

/-- `DROP TABLE tn`: remove the table from the database. -/
def wikiDropTable (db : WikiDB) (tn : String) : WikiDB :=
  db.filter (fun p => p.1 ≠ tn)

/-- The names bound at module scope in `sqlitewiki.py` (imports, the five
functions and the click group); `table_name` is not among them. -/
def sqlitewikiGlobals : List String :=
  ["wikipedia", "click", "sqlite3", "get_page_content", "create_db",
   "insert_content", "query_db", "delete_db", "cli", "ingest", "query", "delete"]

/-- The local names bound in the body of `delete_db` before its DROP
statement is built: the parameter and the connection and cursor. -/
def delete_db_locals : List String := ["db_name", "conn", "c"]

/-- `delete_db(db_name)`: builds `DROP TABLE {tn}` from the name
`table_name`, which Python resolves against the local then the module
scope; an unbound name raises `NameError` before the statement executes,
leaving the database unchanged. -/
def delete_db (st : WikiDB) (db_name : String) : WikiDB × Option String :=
  if "table_name" ∈ delete_db_locals ∨ "table_name" ∈ sqlitewikiGlobals then
    (wikiDropTable st "table_name", none)
  else
    (st, some "NameError: name table_name is not defined")

/-! ### Digit strings: rendering and parsing round-trip -/

theorem natDigitsAux_zero : ∀ f, natDigitsAux f 0 = [] := by
  intro f; cases f <;> simp [natDigitsAux]

theorem natDigitsAux_eq_of_le : ∀ f1 f2 n, n ≤ f1 → n ≤ f2 →
    natDigitsAux f1 n = natDigitsAux f2 n := by
  intro f1
  induction f1 with
  | zero =>
    intro f2 n h1 _
    have hn : n = 0 := Nat.le_zero.mp h1
    subst hn
    rw [natDigitsAux_zero, natDigitsAux_zero]
  | succ f ih =>
    intro f2 n h1 h2
    by_cases hn : n = 0
    · subst hn; rw [natDigitsAux_zero, natDigitsAux_zero]
    · have hpos : 0 < n := Nat.pos_of_ne_zero hn
      have hdiv : n / 10 < n := Nat.div_lt_self hpos (by decide)
      cases f2 with
      | zero => omega
      | succ f2 =>
        simp only [natDigitsAux, if_neg hn]
        exact congrArg _ (ih f2 (n / 10) (by omega) (by omega))

theorem natDigitsRev_zero : natDigitsRev 0 = [] := rfl

theorem natDigitsRev_eq (n : Nat) (hn : n ≠ 0) :
    natDigitsRev n = digitChar (n % 10) :: natDigitsRev (n / 10) := by
  have hpos : 0 < n := Nat.pos_of_ne_zero hn
  have hdiv : n / 10 < n := Nat.div_lt_self hpos (by decide)
  cases n with
  | zero => omega
  | succ m =>
    show natDigitsAux (m + 1) (m + 1) = _
    simp only [natDigitsAux, if_neg hn]
    exact congrArg _ (natDigitsAux_eq_of_le m ((m + 1) / 10) ((m + 1) / 10) (by omega) (by omega))

theorem digitVal_digitChar (d : Nat) (h : d < 10) : digitVal (digitChar d) = d := by
  interval_cases d <;> rfl

theorem isDigit_digitChar (d : Nat) (h : d < 10) : (digitChar d).isDigit = true := by
  interval_cases d <;> rfl

theorem foldr_natDigitsRev (n : Nat) :
    (natDigitsRev n).foldr (fun c a => a * 10 + digitVal c) 0 = n := by
  induction n using Nat.strong_induction_on with
  | _ n ih =>
    by_cases hn : n = 0
    · subst hn; rfl
    · have hpos : 0 < n := Nat.pos_of_ne_zero hn
      have hdiv : n / 10 < n := Nat.div_lt_self hpos (by decide)
      rw [natDigitsRev_eq n hn]
      simp only [List.foldr_cons]
      rw [ih (n / 10) hdiv, digitVal_digitChar (n % 10) (Nat.mod_lt n (by decide))]
      omega

theorem mem_natDigitsRev_isDigit (n : Nat) : ∀ c ∈ natDigitsRev n, c.isDigit = true := by
  induction n using Nat.strong_induction_on with
  | _ n ih =>
    by_cases hn : n = 0
    · subst hn; simp [natDigitsRev_zero]
    · have hpos : 0 < n := Nat.pos_of_ne_zero hn
      have hdiv : n / 10 < n := Nat.div_lt_self hpos (by decide)
      rw [natDigitsRev_eq n hn]
      intro c hc
      rcases List.mem_cons.mp hc with h | h
      · subst h; exact isDigit_digitChar _ (Nat.mod_lt n (by decide))
      · exact ih (n / 10) hdiv c h

theorem natDigitsRev_ne_nil (n : Nat) (hn : n ≠ 0) : natDigitsRev n ≠ [] := by
  rw [natDigitsRev_eq n hn]; exact List.cons_ne_nil _ _

theorem mem_natDigits_isDigit (n : Nat) : ∀ c ∈ natDigits n, c.isDigit = true := by
  unfold natDigits
  by_cases hn : n = 0
  · simp [hn]
  · simp only [if_neg hn]
    intro c hc
    exact mem_natDigitsRev_isDigit n c (List.mem_reverse.mp hc)

theorem natDigits_ne_nil (n : Nat) : natDigits n ≠ [] := by
  unfold natDigits
  by_cases hn : n = 0
  · simp [hn]
  · simp only [if_neg hn]
    intro h
    exact natDigitsRev_ne_nil n hn (by simpa using List.reverse_eq_nil_iff.mp h)

theorem digitsToNat_natDigits (n : Nat) : digitsToNat (natDigits n) = n := by
  unfold natDigits digitsToNat
  by_cases hn : n = 0
  · simp [hn, digitVal]
  · simp only [if_neg hn]
    rw [List.foldl_reverse]
    exact foldr_natDigitsRev n

theorem digitsToNat_replicate_zero (k : Nat) (ds : List Char) :
    digitsToNat (List.replicate k '0' ++ ds) = digitsToNat ds := by
  unfold digitsToNat
  rw [List.foldl_append]
  have h : ∀ j, (List.replicate j '0').foldl (fun a c => a * 10 + digitVal c) 0 = 0 := by
    intro j
    induction j with
    | zero => rfl
    | succ j ihj => rw [List.replicate_succ]; simpa [digitVal] using ihj
  rw [h k]

theorem digitsToNat_snoc (ds : List Char) (c : Char) :
    digitsToNat (ds ++ [c]) = digitsToNat ds * 10 + digitVal c := by
  unfold digitsToNat
  rw [List.foldl_append]
  rfl

theorem isDigit_ne (c x : Char) (hc : c.isDigit = true) (hx : x.isDigit = false) : c ≠ x := by
  intro h; subst h; rw [hc] at hx; exact Bool.noConfusion hx

theorem isDigit_not_whitespace (c : Char) (h : c.isDigit = true) : c.isWhitespace = false := by
  cases hw : c.isWhitespace with
  | false => rfl
  | true =>
    unfold Char.isWhitespace at hw
    have hcase : ((c = ' ' ∨ c = '\t') ∨ c = '\x0d') ∨ c = '\n' := by
      simpa [Bool.or_eq_true] using hw
    rcases hcase with ((h1 | h1) | h1) | h1 <;> (subst h1; exact absurd h (by decide))

theorem takeDigits_eq (ds rest : List Char) (hds : ∀ c ∈ ds, c.isDigit = true)
    (hrest : ∀ c cs, rest = c :: cs → c.isDigit = false) :
    takeDigits (ds ++ rest) = (ds, rest) := by
  induction ds with
  | nil =>
    cases rest with
    | nil => rfl
    | cons c cs =>
      simp [takeDigits, hrest c cs rfl]
  | cons d ds ih =>
    have hd := hds d (List.mem_cons_self _ _)
    have htl := ih (fun c hc => hds c (List.mem_cons_of_mem _ hc))
    simp [takeDigits, hd, htl]

theorem parseMantissa_digits_point (ds fp : List Char)
    (hds : ∀ c ∈ ds, c.isDigit = true) (hfp : ∀ c ∈ fp, c.isDigit = true)
    (hne : ds ≠ []) :
    parseMantissa (ds ++ '.' :: fp) = some (digitsToNat (ds ++ fp), fp.length, []) := by
  unfold parseMantissa
  have h1 : takeDigits (ds ++ '.' :: fp) = (ds, '.' :: fp) := by
    refine takeDigits_eq ds ('.' :: fp) hds ?_
    intro c cs hc
    cases hc
    rfl
  have h2 : takeDigits fp = (fp, []) := by
    have := takeDigits_eq fp [] hfp (by intro c cs hc; cases hc)
    simpa using this
  simp only [h1, h2]
  simp [hne]

theorem data_mk (l : List Char) : (String.mk l).data = l := rfl

theorem dropWhile_cons_false {p : Char → Bool} {c : Char} {l : List Char} (h : p c = false) :
    List.dropWhile p (c :: l) = c :: l := by
  simp [List.dropWhile_cons, h]

theorem parseExpPart_nil : parseExpPart [] = none := rfl

theorem scaleDec_none (m : Int) (k : Nat) : scaleDec m k none = normDec m k := rfl

theorem splitSign_dash (l : List Char) : splitSign ('-' :: l) = (-1, l) := rfl

theorem splitSign_of_ne (c : Char) (l : List Char) (h1 : c ≠ '+') (h2 : c ≠ '-') :
    splitSign (c :: l) = (1, c :: l) := by
  simp [splitSign, h1, h2]

theorem textToReal_data_neg (s : String) (ds fp : List Char)
    (hdata : s.data = '-' :: (ds ++ '.' :: fp))
    (hds : ∀ c ∈ ds, c.isDigit = true) (hfp : ∀ c ∈ fp, c.isDigit = true)
    (hne : ds ≠ []) :
    textToReal s = normDec (-(digitsToNat (ds ++ fp) : Int)) fp.length := by
  unfold textToReal
  rw [hdata]
  rw [dropWhile_cons_false (show ('-' : Char).isWhitespace = false from rfl)]
  rw [splitSign_dash]
  simp only [parseMantissa_digits_point ds fp hds hfp hne, parseExpPart_nil, scaleDec_none]
  norm_num

theorem textToReal_data_pos (s : String) (ds fp : List Char)
    (hdata : s.data = ds ++ '.' :: fp)
    (hds : ∀ c ∈ ds, c.isDigit = true) (hfp : ∀ c ∈ fp, c.isDigit = true)
    (hne : ds ≠ []) :
    textToReal s = normDec ((digitsToNat (ds ++ fp) : Int)) fp.length := by
  obtain ⟨c, cs, hcons⟩ := List.exists_cons_of_ne_nil hne
  have hc : c.isDigit = true := hds c (by rw [hcons]; exact List.mem_cons_self _ _)
  unfold textToReal
  rw [hdata, hcons, List.cons_append]
  rw [dropWhile_cons_false (isDigit_not_whitespace c hc)]
  rw [splitSign_of_ne c _ (isDigit_ne c '+' hc (by decide)) (isDigit_ne c '-' hc (by decide))]
  rw [← List.cons_append, ← hcons]
  simp only [parseMantissa_digits_point ds fp hds hfp hne, parseExpPart_nil, scaleDec_none]
  norm_num

/-- Being in canonical form: no trailing factor of 10 remains. -/
def DecReal.normalized (d : DecReal) : Prop := d.exp = 0 ∨ d.man % 10 ≠ 0

theorem normDec_succ_of_ne (m : Int) (k : Nat) (h : m % 10 ≠ 0) :
    normDec m (k + 1) = ⟨m, k + 1⟩ := by
  simp [normDec, h]

theorem renderDec_data_exp_zero (man : Int) :
    (renderDec ⟨man, 0⟩).data =
      (if man < 0 then ['-'] else []) ++ (natDigits man.natAbs ++ '.' :: ['0']) := by
  by_cases hm : man < 0 <;>
    simp [renderDec, hm, String.data_append, data_mk]

theorem textToReal_renderDec (d : DecReal) (hn : d.normalized) :
    textToReal (renderDec d) = d := by
  obtain ⟨man, exp⟩ := d
  cases exp with
  | zero =>
    have hdig := mem_natDigits_isDigit man.natAbs
    have hne := natDigits_ne_nil man.natAbs
    have hfp : ∀ c ∈ ['0'], c.isDigit = true := by intro c hc; simp at hc; subst hc; rfl
    have hval : digitsToNat (natDigits man.natAbs ++ ['0']) = man.natAbs * 10 := by
      rw [digitsToNat_snoc, digitsToNat_natDigits]; rfl
    by_cases hm : man < 0
    · have hdata : (renderDec ⟨man, 0⟩).data =
          '-' :: (natDigits man.natAbs ++ '.' :: ['0']) := by
        rw [renderDec_data_exp_zero, if_pos hm]; rfl
      rw [textToReal_data_neg _ _ _ hdata hdig hfp hne]
      rw [hval]
      show normDec (-(man.natAbs * 10 : Nat) : Int) 1 = ⟨man, 0⟩
      have hcast : (-(man.natAbs * 10 : Nat) : Int) = (-(man.natAbs : Int)) * 10 := by
        push_cast; ring
      rw [hcast]
      have h10 : ((-(man.natAbs : Int)) * 10) % 10 = 0 := by omega
      rw [show (1 : Nat) = 0 + 1 from rfl, normDec]
      rw [if_pos h10]
      show (⟨(-(man.natAbs : Int)) * 10 / 10, 0⟩ : DecReal) = ⟨man, 0⟩
      rw [Int.mul_ediv_cancel _ (by norm_num)]
      have : (-(man.natAbs : Int)) = man := by omega
      rw [this]
    · have hdata : (renderDec ⟨man, 0⟩).data =
          natDigits man.natAbs ++ '.' :: ['0'] := by
        rw [renderDec_data_exp_zero, if_neg hm]; rfl
      rw [textToReal_data_pos _ _ _ hdata hdig hfp hne]
      rw [hval]
      show normDec ((man.natAbs * 10 : Nat) : Int) 1 = ⟨man, 0⟩
      have hcast : ((man.natAbs * 10 : Nat) : Int) = ((man.natAbs : Int)) * 10 := by
        push_cast; ring
      rw [hcast]
      have h10 : (((man.natAbs : Int)) * 10) % 10 = 0 := by omega
      rw [show (1 : Nat) = 0 + 1 from rfl, normDec]
      rw [if_pos h10]
      show (⟨((man.natAbs : Int)) * 10 / 10, 0⟩ : DecReal) = ⟨man, 0⟩
      rw [Int.mul_ediv_cancel _ (by norm_num)]
      have : ((man.natAbs : Int)) = man := by omega
      rw [this]
  | succ k =>
    have hman : man % 10 ≠ 0 := by
      rcases hn with h | h
      · exact absurd h (by simp)
      · exact h
    have hna : man.natAbs ≠ 0 := by omega
    set L := natDigits man.natAbs with hL
    set padded := List.replicate (k + 1 + 1 - L.length) '0' ++ L with hpadded
    have hplen : L.length ≤ padded.length ∧ k + 2 ≤ padded.length := by
      constructor <;> simp [hpadded, List.length_append, List.length_replicate] <;> omega
    set n0 := padded.length - (k + 1) with hn0
    have hpdig : ∀ c ∈ padded, c.isDigit = true := by
      intro c hc
      rcases List.mem_append.mp hc with h | h
      · rw [List.eq_of_mem_replicate h]; rfl
      · exact mem_natDigits_isDigit man.natAbs c h
    have htake : ∀ c ∈ padded.take n0, c.isDigit = true :=
      fun c hc => hpdig c (List.take_subset n0 padded hc)
    have hdrop : ∀ c ∈ padded.drop n0, c.isDigit = true :=
      fun c hc => hpdig c (List.drop_subset n0 padded hc)
    have htne : padded.take n0 ≠ [] := by
      have : (padded.take n0).length = n0 := by
        rw [List.length_take]; omega
      intro hnil
      rw [hnil] at this
      simp at this
      omega
    have hdlen : (padded.drop n0).length = k + 1 := by
      rw [List.length_drop]; omega
    have hjoin : padded.take n0 ++ padded.drop n0 = padded := List.take_append_drop n0 padded
    have hdval : digitsToNat padded = man.natAbs := by
      rw [hpadded, digitsToNat_replicate_zero, hL, digitsToNat_natDigits]
    by_cases hm : man < 0
    · have hdata : (renderDec ⟨man, k + 1⟩).data =
          '-' :: (padded.take n0 ++ '.' :: padded.drop n0) := by
        simp [renderDec, hm, String.data_append, data_mk, ← hL, ← hpadded, ← hn0]
      rw [textToReal_data_neg _ _ _ hdata htake hdrop htne]
      rw [hjoin, hdval, hdlen]
      have hmod : (-(man.natAbs : Int)) % 10 ≠ 0 := by omega
      rw [normDec_succ_of_ne _ _ hmod]
      have : (-(man.natAbs : Int)) = man := by omega
      rw [this]
    · have hdata : (renderDec ⟨man, k + 1⟩).data =
          padded.take n0 ++ '.' :: padded.drop n0 := by
        simp [renderDec, hm, String.data_append, data_mk, ← hL, ← hpadded, ← hn0]
      rw [textToReal_data_pos _ _ _ hdata htake hdrop htne]
      rw [hjoin, hdval, hdlen]
      have hmod : ((man.natAbs : Int)) % 10 ≠ 0 := by omega
      rw [normDec_succ_of_ne _ _ hmod]
      have : ((man.natAbs : Int)) = man := by omega
      rw [this]

theorem normDec_normalized (m : Int) (k : Nat) : (normDec m k).normalized := by
  induction k generalizing m with
  | zero => exact Or.inl rfl
  | succ k ih =>
    unfold normDec
    by_cases h : m % 10 = 0
    · rw [if_pos h]; exact ih (m / 10)
    · rw [if_neg h]; exact Or.inr h

theorem scaleDec_normalized (m : Int) (k : Nat) (e : Option Int) :
    (scaleDec m k e).normalized := by
  cases e with
  | none => exact normDec_normalized m k
  | some e =>
    show (if 0 ≤ e then normDec (m * 10 ^ e.toNat) k else normDec m (k + (-e).toNat)).normalized
    by_cases h : 0 ≤ e
    · rw [if_pos h]; exact normDec_normalized _ _
    · rw [if_neg h]; exact normDec_normalized _ _

theorem textToReal_normalized (s : String) : (textToReal s).normalized := by
  unfold textToReal
  cases h : parseMantissa (splitSign (s.data.dropWhile (fun c => c.isWhitespace))).2 with
  | none => simp only [h]; exact Or.inl rfl
  | some t => simp only [h]; exact scaleDec_normalized _ _ _

/-- The per-value effect of the three UPDATE statements on a designated
column: strip `'$'`, strip `','`, cast to FLOAT. -/
def coerceValue (v : SQLVal) : SQLVal := castFloat (removeChar ',' (removeChar '$' v))

theorem renderDec_data_exp_succ (man : Int) (k : Nat) :
    (renderDec ⟨man, k + 1⟩).data =
      (if man < 0 then ['-'] else []) ++
        ((List.replicate (k + 1 + 1 - (natDigits man.natAbs).length) '0' ++
            natDigits man.natAbs).take
            ((List.replicate (k + 1 + 1 - (natDigits man.natAbs).length) '0' ++
              natDigits man.natAbs).length - (k + 1)) ++
          '.' :: (List.replicate (k + 1 + 1 - (natDigits man.natAbs).length) '0' ++
            natDigits man.natAbs).drop
            ((List.replicate (k + 1 + 1 - (natDigits man.natAbs).length) '0' ++
              natDigits man.natAbs).length - (k + 1))) := by
  by_cases hm : man < 0 <;> simp [renderDec, hm, String.data_append, data_mk]

theorem mem_renderDec_class (d : DecReal) :
    ∀ c ∈ (renderDec d).data, c.isDigit = true ∨ c = '-' ∨ c = '.' := by
  obtain ⟨man, exp⟩ := d
  have hnd := mem_natDigits_isDigit man.natAbs
  cases exp with
  | zero =>
    rw [renderDec_data_exp_zero]
    intro c hc
    rcases List.mem_append.mp hc with h | h
    · by_cases hm : man < 0
      · rw [if_pos hm] at h; simp at h; subst h; right; left; rfl
      · rw [if_neg hm] at h; simp at h
    · rcases List.mem_append.mp h with h2 | h2
      · exact Or.inl (hnd c h2)
      · rcases List.mem_cons.mp h2 with h3 | h3
        · subst h3; right; right; rfl
        · simp at h3; subst h3; left; rfl
  | succ k =>
    rw [renderDec_data_exp_succ]
    have hpdig : ∀ x ∈ List.replicate (k + 1 + 1 - (natDigits man.natAbs).length) '0' ++
        natDigits man.natAbs, x.isDigit = true := by
      intro x hx
      rcases List.mem_append.mp hx with h | h
      · rw [List.eq_of_mem_replicate h]; rfl
      · exact hnd x h
    intro c hc
    rcases List.mem_append.mp hc with h | h
    · by_cases hm : man < 0
      · rw [if_pos hm] at h; simp at h; subst h; right; left; rfl
      · rw [if_neg hm] at h; simp at h
    · rcases List.mem_append.mp h with h2 | h2
      · exact Or.inl (hpdig c (List.take_subset _ _ h2))
      · rcases List.mem_cons.mp h2 with h3 | h3
        · subst h3; right; right; rfl
        · exact Or.inl (hpdig c (List.drop_subset _ _ h3))

theorem removeChar_keep (x : Char) (v : SQLVal)
    (h : ∀ c ∈ (valToText v).data, c ≠ x) :
    removeChar x v = SQLVal.text (valToText v) := by
  unfold removeChar
  congr 1
  apply String.ext
  rw [data_mk]
  apply List.filter_eq_self.mpr
  intro a ha
  simpa using h a ha

theorem strip_renderDec (d : DecReal) :
    removeChar ',' (removeChar '$' (SQLVal.real d)) = SQLVal.text (renderDec d) := by
  have hkeep : ∀ (x : Char), x.isDigit = false → x ≠ '-' → x ≠ '.' →
      ∀ c ∈ (renderDec d).data, c ≠ x := by
    intro x hxd hx1 hx2 c hc
    rcases mem_renderDec_class d c hc with h | h | h
    · intro he; subst he; rw [hxd] at h; exact Bool.noConfusion h
    · subst h; exact fun he => hx1 he.symm
    · subst h; exact fun he => hx2 he.symm
  have h1 : removeChar '$' (SQLVal.real d) = SQLVal.text (renderDec d) :=
    removeChar_keep '$' (SQLVal.real d) (hkeep '$' (by decide) (by decide) (by decide))
  rw [h1]
  exact removeChar_keep ',' (SQLVal.text (renderDec d))
    (hkeep ',' (by decide) (by decide) (by decide))

theorem coerceValue_real_normalized (d : DecReal) (hn : d.normalized) :
    coerceValue (SQLVal.real d) = SQLVal.real d := by
  unfold coerceValue
  rw [strip_renderDec]
  unfold castFloat
  show SQLVal.real (textToReal (renderDec d)) = SQLVal.real d
  rw [textToReal_renderDec d hn]

theorem coerceValue_idem (v : SQLVal) : coerceValue (coerceValue v) = coerceValue v := by
  have h : coerceValue v =
      SQLVal.real (textToReal (valToText (removeChar ',' (removeChar '$' v)))) := rfl
  rw [h]
  exact coerceValue_real_normalized _ (textToReal_normalized _)

/-! ### Column updates on tables -/

theorem modify_modify_same {α : Type} (f g : α → α) (i : Nat) (l : List α) :
    List.modify f i (List.modify g i l) = List.modify (fun a => f (g a)) i l := by
  apply List.ext_getElem?
  intro m
  simp only [List.getElem?_modify]
  cases l[m]? <;> simp <;> split <;> simp

theorem modify_congr {α : Type} (f g : α → α) (hfg : ∀ a, f a = g a) (i : Nat) (l : List α) :
    List.modify f i l = List.modify g i l := by
  apply List.ext_getElem?
  intro m
  simp only [List.getElem?_modify]
  cases l[m]? <;> simp <;> split <;> simp [hfg]

theorem getElem?_modify_ne {α : Type} (f : α → α) (i j : Nat) (l : List α) (h : i ≠ j) :
    (List.modify f i l)[j]? = l[j]? := by
  rw [List.getElem?_modify]
  cases l[j]? <;> simp [h]

theorem colIndex_getElem (cols : List String) (c : String) :
    ∀ i, colIndex cols c = some i → cols[i]? = some c := by
  induction cols with
  | nil => intro i h; exact Option.noConfusion h
  | cons x xs ih =>
    intro i h
    unfold colIndex at h
    by_cases hx : x = c
    · rw [if_pos hx] at h
      cases h
      simp [hx]
    · rw [if_neg hx] at h
      cases hidx : colIndex xs c with
      | none => rw [hidx] at h; exact Option.noConfusion h
      | some j =>
        rw [hidx] at h
        cases h
        simpa using ih j hidx

theorem colIndex_none_iff (cols : List String) (c : String) :
    colIndex cols c = none ↔ c ∉ cols := by
  induction cols with
  | nil => simp [colIndex]
  | cons x xs ih =>
    unfold colIndex
    by_cases hx : x = c
    · subst hx; simp
    · simp only [if_neg hx]
      cases hidx : colIndex xs c with
      | none =>
        have hnx : c ∉ xs := ih.mp hidx
        constructor
        · intro _ hmem
          rcases List.mem_cons.mp hmem with h1 | h1
          · exact hx h1.symm
          · exact hnx h1
        · intro _; rfl
      | some j =>
        constructor
        · intro h; exact Option.noConfusion h
        · intro h
          exfalso
          apply h
          have hc : c ∈ xs := by
            by_contra hcn
            have hnone := ih.mpr hcn
            rw [hnone] at hidx
            exact Option.noConfusion hidx
          exact List.mem_cons_of_mem _ hc

theorem colIndex_of_mem (cols : List String) (c : String) (h : c ∈ cols) :
    ∃ i, colIndex cols c = some i := by
  cases hidx : colIndex cols c with
  | none => exact absurd h ((colIndex_none_iff cols c).mp hidx)
  | some i => exact ⟨i, rfl⟩

theorem updateColumn_of_index (t : Table) (c : String) (f : SQLVal → SQLVal) (i : Nat)
    (h : colIndex t.cols c = some i) :
    updateColumn t c f = some ⟨t.cols, t.rows.map (fun r => List.modify f i r)⟩ := by
  unfold updateColumn
  rw [h]

theorem coerceColumn_of_index (t : Table) (c : String) (i : Nat)
    (h : colIndex t.cols c = some i) :
    coerceColumn t c = some ⟨t.cols, t.rows.map (fun r => List.modify coerceValue i r)⟩ := by
  obtain ⟨cols, rows⟩ := t
  have h2 : colIndex cols c = some i := h
  have hfun : ∀ r : List SQLVal,
      List.modify castFloat i (List.modify (removeChar ',') i
        (List.modify (removeChar '$') i r)) = List.modify coerceValue i r := by
    intro r
    rw [modify_modify_same, modify_modify_same]
    rfl
  unfold coerceColumn updateColumn
  simp only [h2, Option.some_bind, List.map_map, Option.some.injEq, Table.mk.injEq, true_and]
  exact congrArg (fun f => List.map f rows) (funext hfun)

theorem coerceColumn_none (t : Table) (c : String) (h : colIndex t.cols c = none) :
    coerceColumn t c = none := by
  unfold coerceColumn updateColumn
  rw [h]
  rfl

theorem modify_comm {α : Type} (f g : α → α) (i j : Nat) (hij : i ≠ j) (l : List α) :
    List.modify f i (List.modify g j l) = List.modify g j (List.modify f i l) := by
  apply List.ext_getElem?
  intro m
  simp only [List.getElem?_modify]
  cases l[m]? with
  | none => rfl
  | some a =>
    by_cases him : i = m
    · by_cases hjm : j = m
      · exact absurd (him.trans hjm.symm) hij
      · simp [him, hjm]
    · by_cases hjm : j = m <;> simp [him, hjm]

theorem modify_cv_idem (i : Nat) (r : List SQLVal) :
    List.modify coerceValue i (List.modify coerceValue i r) = List.modify coerceValue i r := by
  rw [modify_modify_same]
  exact modify_congr _ _ coerceValue_idem i r

theorem coerceColumns_nil (u : Table) : coerceColumns u [] = some u := rfl

theorem coerceColumns_cons_inv (u : Table) (c : String) (cs : List String) (w : Table)
    (h : coerceColumns u (c :: cs) = some w) :
    ∃ u1, coerceColumn u c = some u1 ∧ coerceColumns u1 cs = some w := by
  cases hA : coerceColumn u c with
  | none =>
    unfold coerceColumns at h
    rw [hA] at h
    exact Option.noConfusion h
  | some u1 =>
    unfold coerceColumns at h
    rw [hA] at h
    exact ⟨u1, rfl, h⟩

theorem coerceColumns_cons_of (u u1 : Table) (c : String) (cs : List String)
    (hA : coerceColumn u c = some u1) :
    coerceColumns u (c :: cs) = coerceColumns u1 cs := by
  show (match coerceColumn u c with
    | none => none
    | some t1 => coerceColumns t1 cs) = coerceColumns u1 cs
  rw [hA]

theorem coerceColumn_idem (t t1 : Table) (c : String) (h : coerceColumn t c = some t1) :
    coerceColumn t1 c = some t1 := by
  cases hidx : colIndex t.cols c with
  | none => rw [coerceColumn_none t c hidx] at h; exact Option.noConfusion h
  | some i =>
    rw [coerceColumn_of_index t c i hidx] at h
    rw [Option.some.injEq] at h
    subst h
    rw [coerceColumn_of_index ⟨t.cols, t.rows.map (fun r => List.modify coerceValue i r)⟩
      c i hidx]
    simp only [Option.some.injEq, Table.mk.injEq, true_and, List.map_map]
    exact congrArg (fun f => List.map f t.rows)
      (funext fun r => modify_cv_idem i r)

theorem coerceColumns_pair_idem (t t2 : Table) (a b : String) (hab : a ≠ b)
    (h : coerceColumns t [a, b] = some t2) :
    coerceColumns t2 [a, b] = some t2 := by
  obtain ⟨t1, hA, hrest⟩ := coerceColumns_cons_inv t a [b] t2 h
  obtain ⟨t2x, hB, hnil⟩ := coerceColumns_cons_inv t1 b [] t2 hrest
  have ht2 : t2x = t2 := by
    rw [coerceColumns_nil] at hnil
    exact Option.some.inj hnil
  subst ht2
  cases hia : colIndex t.cols a with
  | none => rw [coerceColumn_none t a hia] at hA; exact Option.noConfusion hA
  | some i =>
    rw [coerceColumn_of_index t a i hia] at hA
    rw [Option.some.injEq] at hA
    subst hA
    cases hib : colIndex t.cols b with
    | none =>
      rw [coerceColumn_none ⟨t.cols, t.rows.map (fun r => List.modify coerceValue i r)⟩
        b hib] at hB
      exact Option.noConfusion hB
    | some j =>
      rw [coerceColumn_of_index ⟨t.cols, t.rows.map (fun r => List.modify coerceValue i r)⟩
        b j hib] at hB
      rw [Option.some.injEq] at hB
      subst hB
      have hija : (t.cols)[i]? = some a := colIndex_getElem t.cols a i hia
      have hijb : (t.cols)[j]? = some b := colIndex_getElem t.cols b j hib
      have hij : i ≠ j := by
        intro he
        subst he
        rw [hija] at hijb
        exact hab (Option.some.inj hijb)
      have hstepA : coerceColumn
          (⟨t.cols, (t.rows.map (fun r => List.modify coerceValue i r)).map
            (fun r => List.modify coerceValue j r)⟩ : Table) a =
          some ⟨t.cols, (t.rows.map (fun r => List.modify coerceValue i r)).map
            (fun r => List.modify coerceValue j r)⟩ := by
        rw [coerceColumn_of_index ⟨t.cols, (t.rows.map (fun r =>
          List.modify coerceValue i r)).map (fun r => List.modify coerceValue j r)⟩ a i hia]
        simp only [Option.some.injEq, Table.mk.injEq, true_and, List.map_map]
        refine congrArg (fun f => List.map f t.rows) (funext fun r => ?_)
        show List.modify coerceValue i (List.modify coerceValue j
          (List.modify coerceValue i r)) = List.modify coerceValue j
          (List.modify coerceValue i r)
        rw [modify_comm _ _ i j hij, modify_cv_idem]
      rw [coerceColumns_cons_of _ _ a [b] hstepA]
      have hstepB : coerceColumn
          (⟨t.cols, (t.rows.map (fun r => List.modify coerceValue i r)).map
            (fun r => List.modify coerceValue j r)⟩ : Table) b =
          some ⟨t.cols, (t.rows.map (fun r => List.modify coerceValue i r)).map
            (fun r => List.modify coerceValue j r)⟩ := by
        rw [coerceColumn_of_index ⟨t.cols, (t.rows.map (fun r =>
          List.modify coerceValue i r)).map (fun r => List.modify coerceValue j r)⟩ b j hib]
        simp only [Option.some.injEq, Table.mk.injEq, true_and, List.map_map]
        refine congrArg (fun f => List.map f t.rows) (funext fun r => ?_)
        show List.modify coerceValue j (List.modify coerceValue j
          (List.modify coerceValue i r)) = List.modify coerceValue j
          (List.modify coerceValue i r)
        rw [modify_cv_idem]
      rw [coerceColumns_cons_of _ _ b [] hstepB]
      exact coerceColumns_nil _

theorem coerceColumns_frame (cols : List String) : ∀ (t t2 : Table),
    coerceColumns t cols = some t2 →
    t2.cols = t.cols ∧ t2.rows.length = t.rows.length ∧
      ∀ (i : Nat) (vs : List SQLVal), t.rows[i]? = some vs →
        ∃ vs2 : List SQLVal, t2.rows[i]? = some vs2 ∧ vs2.length = vs.length ∧
          ∀ (j : Nat) (name : String),
            t.cols[j]? = some name → name ∉ cols → vs2[j]? = vs[j]? := by
  induction cols with
  | nil =>
    intro t t2 h
    rw [coerceColumns_nil] at h
    cases Option.some.inj h
    exact ⟨rfl, rfl, fun i vs hvs => ⟨vs, hvs, rfl, fun _ _ _ _ => rfl⟩⟩
  | cons c cs ih =>
    intro t t2 h
    obtain ⟨t1, hA, hB⟩ := coerceColumns_cons_inv t c cs t2 h
    cases hidx : colIndex t.cols c with
    | none => rw [coerceColumn_none t c hidx] at hA; exact Option.noConfusion hA
    | some ic =>
      rw [coerceColumn_of_index t c ic hidx] at hA
      rw [Option.some.injEq] at hA
      subst hA
      obtain ⟨hcols1, hlen1, hframe1⟩ := ih _ t2 hB
      refine ⟨hcols1, by simpa using hlen1, ?_⟩
      intro i vs hvs
      have hmid : (List.map (fun r => List.modify coerceValue ic r) t.rows)[i]? =
          some (List.modify coerceValue ic vs) := by
        rw [List.getElem?_map, hvs]
        rfl
      obtain ⟨vs2, hvs2, hlen2, hframe2⟩ := hframe1 i _ hmid
      refine ⟨vs2, hvs2, by simpa using hlen2, ?_⟩
      intro j name hj hname
      have hnc : name ≠ c := fun he => hname (he ▸ List.mem_cons_self c cs)
      have hjic : ic ≠ j := by
        intro he
        subst he
        rw [colIndex_getElem t.cols c ic hidx] at hj
        exact hnc (Option.some.inj hj).symm
      have hmidj : (List.modify coerceValue ic vs)[j]? = vs[j]? :=
        getElem?_modify_ne coerceValue ic j vs hjic
      rw [← hmidj]
      exact hframe2 j name hj (fun hm => hname (List.mem_cons_of_mem c hm))

/-! ### Database-level helpers -/

theorem dbLookup_cons (k : String) (w : Table) (rest : DB) (n : String) :
    dbLookup ((k, w) :: rest) n = if k = n then some w else dbLookup rest n := rfl

theorem dbSet_cons (k : String) (w : Table) (rest : DB) (n : String) (t : Table) :
    dbSet ((k, w) :: rest) n t =
      if k = n then (k, t) :: rest else (k, w) :: dbSet rest n t := rfl

theorem dbLookup_dbSet_self (db : DB) (n : String) (t u : Table)
    (h : dbLookup db n = some u) : dbLookup (dbSet db n t) n = some t := by
  induction db with
  | nil => exact Option.noConfusion h
  | cons p rest ih =>
    obtain ⟨k, w⟩ := p
    rw [dbLookup_cons] at h
    by_cases hk : k = n
    · simp only [dbSet_cons, if_pos hk, dbLookup_cons]
    · rw [if_neg hk] at h
      simp only [dbSet_cons, if_neg hk, dbLookup_cons]
      exact ih h

theorem dbSet_dbSet (db : DB) (n : String) (t u : Table) :
    dbSet (dbSet db n t) n u = dbSet db n u := by
  induction db with
  | nil => rfl
  | cons p rest ih =>
    obtain ⟨k, w⟩ := p
    by_cases hk : k = n
    · simp only [dbSet_cons, if_pos hk]
    · simp only [dbSet_cons, if_neg hk]
      rw [ih]

theorem dbLookup_append_single (db : DB) (n : String) (t : Table)
    (h : dbLookup db n = none) : dbLookup (db ++ [(n, t)]) n = some t := by
  induction db with
  | nil => simp [dbLookup_cons]
  | cons p rest ih =>
    obtain ⟨k, w⟩ := p
    rw [dbLookup_cons] at h
    by_cases hk : k = n
    · rw [if_pos hk] at h; exact Option.noConfusion h
    · rw [if_neg hk] at h
      rw [List.cons_append, dbLookup_cons, if_neg hk]
      exact ih h

theorem dbSet_append_single (db : DB) (n : String) (t u : Table)
    (h : dbLookup db n = none) : dbSet (db ++ [(n, t)]) n u = db ++ [(n, u)] := by
  induction db with
  | nil => simp [dbSet_cons]
  | cons p rest ih =>
    obtain ⟨k, w⟩ := p
    rw [dbLookup_cons] at h
    by_cases hk : k = n
    · rw [if_pos hk] at h; exact Option.noConfusion h
    · rw [if_neg hk] at h
      rw [List.cons_append, dbSet_cons, if_neg hk, ih h]
      rfl

/-! ### Insert-loop helpers -/

theorem insertRows_some_of (header : List String) (rows : List Row)
    (h : ∀ r ∈ rows, r.length = header.length) :
    insertRows header rows = some (rows.map (fun r => r.map SQLVal.text)) := by
  induction rows with
  | nil => rfl
  | cons r rs ih =>
    unfold insertRows
    rw [if_pos (h r (List.mem_cons_self _ _))]
    rw [ih (fun x hx => h x (List.mem_cons_of_mem _ hx))]
    rfl

theorem insertRows_none_of (header : List String) (rows : List Row) (r : Row)
    (hr : r ∈ rows) (hlen : r.length ≠ header.length) :
    insertRows header rows = none := by
  induction rows with
  | nil => exact absurd hr (List.not_mem_nil r)
  | cons x xs ih =>
    unfold insertRows
    rcases List.mem_cons.mp hr with he | hm
    · subst he
      rw [if_neg hlen]
    · by_cases hx : x.length = header.length
      · rw [if_pos hx, ih hm]
        rfl
      · rw [if_neg hx]

theorem insertRows_some_inv (header : List String) (rows : List Row)
    (rs : List (List SQLVal)) (h : insertRows header rows = some rs) :
    rs = rows.map (fun r => r.map SQLVal.text) ∧
      ∀ r ∈ rows, r.length = header.length := by
  induction rows generalizing rs with
  | nil =>
    refine ⟨?_, by intro r hr; exact absurd hr (List.not_mem_nil r)⟩
    unfold insertRows at h
    cases Option.some.inj h
    rfl
  | cons x xs ih =>
    unfold insertRows at h
    by_cases hx : x.length = header.length
    · rw [if_pos hx] at h
      cases hrec : insertRows header xs with
      | none => rw [hrec] at h; exact Option.noConfusion h
      | some tl =>
        rw [hrec] at h
        obtain ⟨htl, hall⟩ := ih tl hrec
        have h2 : List.map SQLVal.text x :: tl = rs := Option.some.inj h
        subst h2
        constructor
        · rw [htl]; rfl
        · intro r hr
          rcases List.mem_cons.mp hr with he | hm
          · subst he; exact hx
          · exact hall r hm
    · rw [if_neg hx] at h
      exact Option.noConfusion h

/-! ### The ORDER BY comparison is total and transitive -/

theorem char_toNat_inj {a b : Char} (h : a.toNat = b.toNat) : a = b :=
  Char.eq_of_val_eq (UInt32.ext h)

theorem charsLe_total : ∀ l1 l2 : List Char, charsLe l1 l2 = true ∨ charsLe l2 l1 = true := by
  intro l1
  induction l1 with
  | nil => intro l2; left; rfl
  | cons a as ih =>
    intro l2
    cases l2 with
    | nil => right; rfl
    | cons b bs =>
      unfold charsLe
      by_cases hab : a = b
      · subst hab
        rw [if_pos rfl, if_pos rfl]
        exact ih bs
      · have hba : ¬b = a := fun h => hab h.symm
        rw [if_neg hab, if_neg hba]
        have htn : a.toNat ≠ b.toNat := fun h => hab (char_toNat_inj h)
        rcases Nat.lt_or_ge a.toNat b.toNat with h | h
        · left; rw [Nat.blt_eq]; exact h
        · right; rw [Nat.blt_eq]; omega

theorem charsLe_trans : ∀ l1 l2 l3 : List Char,
    charsLe l1 l2 = true → charsLe l2 l3 = true → charsLe l1 l3 = true := by
  intro l1
  induction l1 with
  | nil => intro l2 l3 _ _; rfl
  | cons a as ih =>
    intro l2 l3 h12 h23
    cases l2 with
    | nil => exact absurd h12 (by simp [charsLe])
    | cons b bs =>
      cases l3 with
      | nil => exact absurd h23 (by simp [charsLe])
      | cons c cs =>
        unfold charsLe at h12 h23 ⊢
        by_cases hab : a = b
        · subst hab
          rw [if_pos rfl] at h12
          by_cases hac : a = c
          · subst hac
            rw [if_pos rfl] at h23
            rw [if_pos rfl]
            exact ih bs cs h12 h23
          · rw [if_neg hac] at h23
            rw [if_neg hac]
            exact h23
        · rw [if_neg hab] at h12
          by_cases hbc : b = c
          · subst hbc
            rw [if_neg hab]
            exact h12
          · rw [if_neg hbc] at h23
            rw [Nat.blt_eq] at h12 h23
            have hlt : a.toNat < c.toNat := Nat.lt_trans h12 h23
            have hac : ¬a = c := fun h => by subst h; omega
            rw [if_neg hac, Nat.blt_eq]
            exact hlt

theorem decRealLe_total (a b : DecReal) : decRealLe a b = true ∨ decRealLe b a = true := by
  unfold decRealLe
  rcases le_total (a.man * 10 ^ b.exp) (b.man * 10 ^ a.exp) with h | h
  · left; exact decide_eq_true h
  · right; exact decide_eq_true h

theorem decRealLe_trans (a b c : DecReal)
    (h1 : decRealLe a b = true) (h2 : decRealLe b c = true) : decRealLe a c = true := by
  unfold decRealLe at h1 h2 ⊢
  have h1x := of_decide_eq_true h1
  have h2x := of_decide_eq_true h2
  apply decide_eq_true
  have pb : (0 : Int) < 10 ^ b.exp := pow_pos (by norm_num) _
  have p1 : (0 : Int) ≤ 10 ^ c.exp := pow_nonneg (by norm_num) _
  have p2 : (0 : Int) ≤ 10 ^ a.exp := pow_nonneg (by norm_num) _
  have key : a.man * 10 ^ c.exp * 10 ^ b.exp ≤ c.man * 10 ^ a.exp * 10 ^ b.exp := by
    nlinarith [mul_le_mul_of_nonneg_right h1x p1, mul_le_mul_of_nonneg_right h2x p2]
  exact le_of_mul_le_mul_right key pb

theorem sqlval_le_total (a b : SQLVal) : a.le b = true ∨ b.le a = true := by
  cases a with
  | text sa =>
    cases b with
    | text sb => exact charsLe_total sa.data sb.data
    | real db => right; rfl
  | real da =>
    cases b with
    | text sb => left; rfl
    | real db => exact decRealLe_total da db

theorem sqlval_le_trans (a b c : SQLVal)
    (h1 : a.le b = true) (h2 : b.le c = true) : a.le c = true := by
  cases a with
  | text sa =>
    cases b with
    | text sb =>
      cases c with
      | text sc => exact charsLe_trans sa.data sb.data sc.data h1 h2
      | real dc => exact Bool.noConfusion h2
    | real db => exact Bool.noConfusion h1
  | real da =>
    cases b with
    | text sb =>
      cases c with
      | text sc => rfl
      | real dc => exact Bool.noConfusion h2
    | real db =>
      cases c with
      | text sc => rfl
      | real dc => exact decRealLe_trans da db dc h1 h2

instance : IsTotal (SQLVal × SQLVal) sqlDescRel :=
  ⟨fun a b => sqlval_le_total b.2 a.2⟩

instance : IsTrans (SQLVal × SQLVal) sqlDescRel :=
  ⟨fun a b c h1 h2 => sqlval_le_trans c.2 b.2 a.2 h2 h1⟩

/-! ### Unfolding equations for the import pipeline -/

theorem coerceColumns_cons_none (u : Table) (c : String) (cs : List String)
    (h : coerceColumn u c = none) : coerceColumns u (c :: cs) = none := by
  show (match coerceColumn u c with
    | none => none
    | some t1 => coerceColumns t1 cs) = none
  rw [h]

theorem import_nil_eq (db : DB) (reports : ReportsDir)
    (hcomb : get_combined_csv_file reports = []) :
    import_csv_to_sqlite db reports = (db, some "StopIteration") := by
  unfold import_csv_to_sqlite
  rw [hcomb]

theorem import_cons_eq (db : DB) (hrow : Row) (drows : List Row) (reports : ReportsDir)
    (hcomb : get_combined_csv_file reports = hrow :: drows) :
    import_csv_to_sqlite db reports =
      (if hrow.map convert_header_name = [] then (db, some "incomplete input")
      else if (dbLookup db "data").isSome then (db, some "table data already exists")
      else
        match insertRows (hrow.map convert_header_name) drows with
        | none => (db ++ [("data", ⟨hrow.map convert_header_name, []⟩)],
            some "table data has wrong number of values")
        | some rs =>
          convert_dollar_amount_to_float
            (dbSet (db ++ [("data", ⟨hrow.map convert_header_name, []⟩)]) "data"
              ⟨hrow.map convert_header_name, rs⟩)) := by
  unfold import_csv_to_sqlite
  rw [hcomb]

theorem convert_default_eq (db : DB) :
    convert_dollar_amount_to_float db =
      (match dbLookup db "data" with
      | none => (db, some "no such table: data")
      | some t =>
        match coerceColumns t defaultCoercionColumns with
        | none => (db, some "no such column")
        | some t1 => (dbSet db "data" t1, none)) := rfl

theorem import_ok_inv (db db2 : DB) (reports : ReportsDir)
    (h : import_csv_to_sqlite db reports = (db2, none)) :
    ∃ (hrow : Row) (drows : List Row) (t2 : Table),
      get_combined_csv_file reports = hrow :: drows ∧
      dbLookup db "data" = none ∧
      (∀ r ∈ drows, r.length = hrow.length) ∧
      coerceColumns ⟨hrow.map convert_header_name,
        drows.map (fun r => r.map SQLVal.text)⟩ defaultCoercionColumns = some t2 ∧
      db2 = db ++ [("data", t2)] := by
  cases hcomb : get_combined_csv_file reports with
  | nil =>
    rw [import_nil_eq db reports hcomb] at h
    exact Option.noConfusion (congrArg Prod.snd h)
  | cons hrow drows =>
    rw [import_cons_eq db hrow drows reports hcomb] at h
    by_cases hhdr : hrow.map convert_header_name = []
    · rw [if_pos hhdr] at h
      exact Option.noConfusion (congrArg Prod.snd h)
    · rw [if_neg hhdr] at h
      cases hex : dbLookup db "data" with
      | some t =>
        simp only [hex, Option.isSome_some, if_true] at h
        exact Option.noConfusion (congrArg Prod.snd h)
      | none =>
        simp only [hex, Option.isSome_none, Bool.false_eq_true, if_false] at h
        cases hins : insertRows (hrow.map convert_header_name) drows with
        | none =>
          simp only [hins] at h
          exact Option.noConfusion (congrArg Prod.snd h)
        | some rs =>
          simp only [hins] at h
          obtain ⟨hrs, hall⟩ := insertRows_some_inv _ _ _ hins
          subst hrs
          rw [dbSet_append_single db "data" _ _ hex] at h
          rw [convert_default_eq] at h
          simp only [dbLookup_append_single db "data" _ hex] at h
          cases hco : coerceColumns ⟨hrow.map convert_header_name,
              drows.map (fun r => r.map SQLVal.text)⟩ defaultCoercionColumns with
          | none =>
            simp only [hco] at h
            exact Option.noConfusion (congrArg Prod.snd h)
          | some t2 =>
            simp only [hco] at h
            have hdb2 := congrArg Prod.fst h
            rw [dbSet_append_single db "data" _ _ hex] at hdb2
            refine ⟨hrow, drows, t2, rfl, rfl, ?_, hco, hdb2.symm⟩
            intro r hr
            have := hall r hr
            rwa [List.length_map] at this

/-! ### The claims -/

/-- Claim C1: the load is all-or-nothing.  When some data row's field count
differs from the header's column count, the insert raises a fatal error
(the result carries an error), the load aborts, and the `data` table —
created in autocommit before the single final commit — holds no rows. -/
theorem c1_all_or_nothing (db : DB) (reports : ReportsDir) (hrow r : Row)
    (drows : List Row)
    (hcomb : get_combined_csv_file reports = hrow :: drows)
    (hhdr : hrow.map convert_header_name ≠ [])
    (hno : dbLookup db "data" = none)
    (hr : r ∈ drows) (hlen : r.length ≠ hrow.length) :
    (import_csv_to_sqlite db reports).2.isSome = true ∧
      dbLookup (import_csv_to_sqlite db reports).1 "data" =
        some ⟨hrow.map convert_header_name, []⟩ := by
  have hlen2 : r.length ≠ (hrow.map convert_header_name).length := by
    rw [List.length_map]; exact hlen
  have hins := insertRows_none_of (hrow.map convert_header_name) drows r hr hlen2
  rw [import_cons_eq db hrow drows reports hcomb, if_neg hhdr]
  simp only [hno, Option.isSome_none, Bool.false_eq_true, if_false, hins]
  exact ⟨rfl, dbLookup_append_single db "data" _ hno⟩

/-- Claim C4: coercion is idempotent.  If `convert_dollar_amount_to_float`
succeeds, running it again on the resulting database changes nothing: every
value in the designated columns (and the whole database) stays equal. -/
theorem c4_coercion_idempotent (db db1 : DB)
    (h : convert_dollar_amount_to_float db = (db1, none)) :
    convert_dollar_amount_to_float db1 = (db1, none) := by
  rw [convert_default_eq] at h
  cases hlk : dbLookup db "data" with
  | none =>
    simp only [hlk] at h
    exact Option.noConfusion (congrArg Prod.snd h)
  | some t =>
    simp only [hlk] at h
    cases hco : coerceColumns t defaultCoercionColumns with
    | none =>
      simp only [hco] at h
      exact Option.noConfusion (congrArg Prod.snd h)
    | some t1 =>
      simp only [hco] at h
      have hdb1 : dbSet db "data" t1 = db1 := congrArg Prod.fst h
      have hlk1 : dbLookup db1 "data" = some t1 := by
        rw [← hdb1]; exact dbLookup_dbSet_self db "data" t1 t hlk
      have hidem : coerceColumns t1 defaultCoercionColumns = some t1 :=
        coerceColumns_pair_idem t t1 "Commission_Earned" "Sales" (by decide) hco
      rw [convert_default_eq]
      simp only [hlk1, hidem]
      rw [← hdb1, dbSet_dbSet]

/-- Claim C5 is refuted by this concrete run: a designated column holding
`"abc"` (pure non-numeric residue) does not raise on the cast — the update
completes without error and stores the REAL value 0.0. -/
theorem c5_counterexample :
    (convert_dollar_amount_to_float
      [("data", ⟨["Commission_Earned", "Sales"],
        [[SQLVal.text "abc", SQLVal.text "1"]]⟩)]).2 = none ∧
    dbLookup (convert_dollar_amount_to_float
      [("data", ⟨["Commission_Earned", "Sales"],
        [[SQLVal.text "abc", SQLVal.text "1"]]⟩)]).1 "data" =
      some ⟨["Commission_Earned", "Sales"],
        [[SQLVal.real ⟨0, 0⟩, SQLVal.real ⟨1, 0⟩]]⟩ :=
  ⟨rfl, rfl⟩

/-- Claim C5 (amended): the cast step of coercion never fails.  Whenever the
`data` table exists and has the two designated columns, the coercion
UPDATE completes without error; SQLite's CAST silently converts non-numeric
residue to the longest numeric run (0.0 when there is none). -/
theorem c5_cast_never_fails (db : DB) (t : Table)
    (hlk : dbLookup db "data" = some t)
    (hce : "Commission_Earned" ∈ t.cols) (hsal : "Sales" ∈ t.cols) :
    (convert_dollar_amount_to_float db).2 = none := by
  obtain ⟨i, hi⟩ := colIndex_of_mem _ _ hce
  obtain ⟨j, hj⟩ := colIndex_of_mem _ _ hsal
  rw [convert_default_eq]
  simp only [hlk]
  have h1 := coerceColumn_of_index t "Commission_Earned" i hi
  have h2 := coerceColumn_of_index
    ⟨t.cols, t.rows.map (fun r => List.modify coerceValue i r)⟩ "Sales" j hj
  rw [show defaultCoercionColumns = ["Commission_Earned", "Sales"] from rfl]
  rw [coerceColumns_cons_of _ _ _ _ h1, coerceColumns_cons_of _ _ _ _ h2,
    coerceColumns_nil]

/-- Claim C6: importing into a database that already has the `data` table
fails at table-creation time with a table-already-exists error, with no
pre-check and no pre-drop, leaving the database (and so the existing
table's rows) unchanged. -/
theorem c6_reimport_fails (db : DB) (reports : ReportsDir) (t : Table)
    (hrow : Row) (drows : List Row)
    (hcomb : get_combined_csv_file reports = hrow :: drows)
    (hhdr : hrow.map convert_header_name ≠ [])
    (hex : dbLookup db "data" = some t) :
    import_csv_to_sqlite db reports = (db, some "table data already exists") := by
  rw [import_cons_eq db hrow drows reports hcomb, if_neg hhdr]
  simp only [hex, Option.isSome_some, if_true]

/-- Claim C7: a missing or unreadable reports directory makes discovery
yield no CSV files (and the combined stream is empty) instead of raising. -/
theorem c7_missing_dir_empty :
    get_csv_files none = [] ∧ get_combined_csv_file none = [] :=
  ⟨rfl, rfl⟩

/-- Claim C8: `delete_db` builds its DROP statement from the name
`table_name`, which is bound neither locally nor at module scope, so every
invocation fails with a NameError before the drop executes and the
database is unchanged. -/
theorem c8_delete_undefined_name (st : WikiDB) (n : String) :
    delete_db st n = (st, some "NameError: name table_name is not defined") := by
  unfold delete_db
  rw [if_neg (by decide)]

/-- Claim C2: the sales query returns at most `limit` rows of
(label, metric) pairs ordered by the metric descending — each returned
row's metric is ≥ the next one's — and the limit defaults to 10. -/
theorem c2_sales_top_n (db : DB) (limit : Nat) (res : List (SQLVal × SQLVal))
    (h : get_top_revenue_generating_products db limit = Except.ok res) :
    res.length ≤ limit ∧
      (∀ i : Nat, ∀ hi : i + 1 < res.length,
        SQLVal.le (res.get ⟨i + 1, hi⟩).2 (res.get ⟨i, by omega⟩).2 = true) ∧
      (∀ db2 : DB, get_top_revenue_generating_products db2 =
        get_top_revenue_generating_products db2 10) := by
  unfold get_top_revenue_generating_products at h
  cases hdb : dbLookup db "data" with
  | none =>
    simp only [hdb] at h
    exact Except.noConfusion h
  | some t =>
    simp only [hdb] at h
    cases hti : colIndex t.cols "Title" with
    | none =>
      cases htj : colIndex t.cols "Commission_Earned" with
      | none => simp only [hti, htj] at h; exact Except.noConfusion h
      | some j => simp only [hti, htj] at h; exact Except.noConfusion h
    | some i =>
      cases htj : colIndex t.cols "Commission_Earned" with
      | none => simp only [hti, htj] at h; exact Except.noConfusion h
      | some j =>
        simp only [hti, htj] at h
        have hres : res = (List.insertionSort sqlDescRel
            (t.rows.map (fun r => (r.getD i (SQLVal.text ""),
              r.getD j (SQLVal.text ""))))).take limit :=
          (Except.ok.inj h).symm
        refine ⟨?_, ?_, fun db2 => rfl⟩
        · rw [hres, List.length_take]
          exact min_le_left _ _
        · intro k hk
          have hsorted : List.Sorted sqlDescRel (List.insertionSort sqlDescRel
              (t.rows.map (fun r => (r.getD i (SQLVal.text ""),
                r.getD j (SQLVal.text ""))))) :=
            List.sorted_insertionSort sqlDescRel _
          have htake : List.Pairwise sqlDescRel res := by
            rw [hres]
            exact List.Pairwise.sublist (List.take_sublist _ _) hsorted
          have hrel := List.pairwise_iff_getElem.mp htake k (k + 1)
            (by omega) hk (by omega)
          exact hrel

/-- Claim C3: the combined stream takes its header from the first row of
the first discovered file only (spaces replaced by underscores via
`convert_header_name`), and concatenates the raw rows of all files, so on a
successful import every later file's first row is loaded as an ordinary
data row: the table's column list comes from the first file and its row
count includes every row (headers included) of the remaining files. -/
theorem c3_header_and_stream (reports : ReportsDir) (f : CSVFile)
    (rest : List CSVFile) (r0 : Row) (rtl : List Row)
    (hdisc : get_csv_files reports = f :: rest) (hf : f.rows = r0 :: rtl) :
    get_combined_csv_file reports =
      r0 :: (rtl ++ (rest.map (fun g => g.rows)).flatten) ∧
      ∀ db db2 : DB, import_csv_to_sqlite db reports = (db2, none) →
        ∃ t : Table, dbLookup db2 "data" = some t ∧
          t.cols = r0.map convert_header_name ∧
          t.rows.length = rtl.length + ((rest.map (fun g => g.rows)).flatten).length := by
  have hstream : get_combined_csv_file reports =
      r0 :: (rtl ++ (rest.map (fun g => g.rows)).flatten) := by
    unfold get_combined_csv_file
    rw [hdisc]
    simp [hf]
  refine ⟨hstream, ?_⟩
  intro db db2 himp
  obtain ⟨hrow, drows, t2, hcomb2, hex2, _, hco2, hdb2⟩ :=
    import_ok_inv db db2 reports himp
  rw [hstream] at hcomb2
  injection hcomb2 with h1 h2
  have hhrow : hrow = r0 := h1.symm
  have hdrows : drows = rtl ++ (rest.map (fun g => g.rows)).flatten := h2.symm
  obtain ⟨hcols, hlen, _⟩ := coerceColumns_frame defaultCoercionColumns _ t2 hco2
  refine ⟨t2, ?_, ?_, ?_⟩
  · rw [hdb2]
    exact dbLookup_append_single db "data" t2 hex2
  · rw [hcols, hhrow]
  · rw [hlen]
    simp only [List.length_map, hdrows, List.length_append]

/-- Claim C9: on a successful import, the row count printed by `printcsv`
minus its single header row equals the number of rows in the `data` table,
and every value in a column outside the designated coercion columns is
stored exactly as the text of the corresponding CSV field. -/
theorem c9_count_and_frame (db db2 : DB) (reports : ReportsDir)
    (h : import_csv_to_sqlite db reports = (db2, none)) :
    ∃ t : Table, dbLookup db2 "data" = some t ∧
      t.rows.length + 1 = (print_csv reports).length ∧
      ∀ (i : Nat) (r : Row), ((print_csv reports).tail)[i]? = some r →
        ∃ vs : List SQLVal, t.rows[i]? = some vs ∧
          ∀ (j : Nat) (name : String), t.cols[j]? = some name →
            name ≠ "Commission_Earned" → name ≠ "Sales" →
            vs[j]? = r[j]?.map SQLVal.text := by
  obtain ⟨hrow, drows, t2, hcomb, hex, _, hco, hdb2⟩ := import_ok_inv db db2 reports h
  obtain ⟨hcols, hlen, hframe⟩ := coerceColumns_frame defaultCoercionColumns _ t2 hco
  refine ⟨t2, ?_, ?_, ?_⟩
  · rw [hdb2]
    exact dbLookup_append_single db "data" t2 hex
  · unfold print_csv
    rw [hcomb, hlen]
    simp
  · intro i r hi
    unfold print_csv at hi
    rw [hcomb, List.tail_cons] at hi
    have hpre : (drows.map (fun rr => rr.map SQLVal.text))[i]? =
        some (r.map SQLVal.text) := by
      rw [List.getElem?_map, hi]
      rfl
    obtain ⟨vs2, hvs2, _, hframe2⟩ := hframe i _ hpre
    refine ⟨vs2, hvs2, ?_⟩
    intro j name hj hn1 hn2
    have hnames : name ∉ defaultCoercionColumns := by
      intro hm
      rcases List.mem_cons.mp hm with h1 | h1
      · exact hn1 h1
      · rcases List.mem_cons.mp h1 with h2 | h2
        · exact hn2 h2
        · exact absurd h2 (List.not_mem_nil name)
    have hj2 : (⟨hrow.map convert_header_name,
        drows.map (fun rr => rr.map SQLVal.text)⟩ : Table).cols[j]? = some name := by
      have hjx := hj
      rw [hcols] at hjx
      exact hjx
    rw [hframe2 j name hj2 hnames, List.getElem?_map]

/-- Claim C10: after the committed load, import unconditionally coerces the
two fixed columns Commission_Earned and Sales; when no column of the
normalised header matches Commission_Earned (or none matches Sales) even
under SQLite's case-insensitive identifier comparison, the corresponding
UPDATE finds no such column, so the import invocation fails during
coercion, yet the loaded rows remain committed in the `data` table as
text.  (With only a case variant of a designated name absent, SQLite
would still resolve the UPDATE, so the hypothesis is the case-insensitive
absence.) -/
theorem c10_missing_designated_columns (db : DB) (reports : ReportsDir)
    (hrow : Row) (drows : List Row)
    (hcomb : get_combined_csv_file reports = hrow :: drows)
    (hhdr : hrow.map convert_header_name ≠ [])
    (hno : dbLookup db "data" = none)
    (hall : ∀ r ∈ drows, r.length = hrow.length)
    (hmiss : (∀ x ∈ hrow.map convert_header_name,
        sqlNameEq x "Commission_Earned" = false) ∨
      (∀ x ∈ hrow.map convert_header_name, sqlNameEq x "Sales" = false)) :
    ∃ e : String, import_csv_to_sqlite db reports =
      (db ++ [("data", ⟨hrow.map convert_header_name,
        drows.map (fun r => r.map SQLVal.text)⟩)], some e) := by
  have hlen : ∀ r ∈ drows, r.length = (hrow.map convert_header_name).length := by
    intro r hr
    rw [List.length_map]
    exact hall r hr
  have hins := insertRows_some_of (hrow.map convert_header_name) drows hlen
  refine ⟨"no such column", ?_⟩
  rw [import_cons_eq db hrow drows reports hcomb, if_neg hhdr]
  simp only [hno, Option.isSome_none, Bool.false_eq_true, if_false, hins]
  rw [dbSet_append_single db "data" _ _ hno]
  rw [convert_default_eq]
  simp only [dbLookup_append_single db "data" _ hno]
  have hconone : coerceColumns ⟨hrow.map convert_header_name,
      drows.map (fun r => r.map SQLVal.text)⟩ defaultCoercionColumns = none := by
    rw [show defaultCoercionColumns = ["Commission_Earned", "Sales"] from rfl]
    by_cases hce : "Commission_Earned" ∈ hrow.map convert_header_name
    · have hsal : "Sales" ∉ hrow.map convert_header_name := by
        rcases hmiss with h1 | h1
        · exact absurd (h1 "Commission_Earned" hce) (by decide)
        · intro hmem
          exact absurd (h1 "Sales" hmem) (by decide)
      obtain ⟨i, hi⟩ := colIndex_of_mem _ _ hce
      rw [coerceColumns_cons_of _ _ _ _ (coerceColumn_of_index
        ⟨hrow.map convert_header_name, drows.map (fun r => r.map SQLVal.text)⟩
        "Commission_Earned" i hi)]
      exact coerceColumns_cons_none _ _ _
        (coerceColumn_none _ _ ((colIndex_none_iff _ _).mpr hsal))
    · exact coerceColumns_cons_none _ _ _
        (coerceColumn_none _ _ ((colIndex_none_iff _ _).mpr hce))
  simp only [hconone]

/-! ### Concrete runs of the claim theorems -/

theorem c1_all_or_nothing_witness :
    get_combined_csv_file (some [⟨"a.csv",
      [["Title", "Commission Earned"], ["Widget", "$1,200.00", "extra"]]⟩]) =
      ["Title", "Commission Earned"] :: [["Widget", "$1,200.00", "extra"]] ∧
    (["Title", "Commission Earned"] : Row).map convert_header_name ≠ [] ∧
    dbLookup [] "data" = none ∧
    (["Widget", "$1,200.00", "extra"] : Row) ∈ [["Widget", "$1,200.00", "extra"]] ∧
    (["Widget", "$1,200.00", "extra"] : Row).length ≠
      (["Title", "Commission Earned"] : Row).length ∧
    ((import_csv_to_sqlite [] (some [⟨"a.csv",
        [["Title", "Commission Earned"], ["Widget", "$1,200.00", "extra"]]⟩])).2.isSome =
        true ∧
      dbLookup (import_csv_to_sqlite [] (some [⟨"a.csv",
        [["Title", "Commission Earned"], ["Widget", "$1,200.00", "extra"]]⟩])).1 "data" =
        some ⟨(["Title", "Commission Earned"] : Row).map convert_header_name, []⟩) :=
  ⟨rfl, by decide, rfl, by decide, by decide,
    c1_all_or_nothing [] (some [⟨"a.csv",
      [["Title", "Commission Earned"], ["Widget", "$1,200.00", "extra"]]⟩])
      ["Title", "Commission Earned"] ["Widget", "$1,200.00", "extra"]
      [["Widget", "$1,200.00", "extra"]] rfl (by decide) rfl (by decide) (by decide)⟩

theorem c2_sales_top_n_witness :
    get_top_revenue_generating_products
      [("data", ⟨["Title", "Commission_Earned"],
        [[SQLVal.text "Widget", SQLVal.real ⟨1200, 0⟩],
         [SQLVal.text "Gadget", SQLVal.real ⟨3005, 1⟩]]⟩)] 1 =
      Except.ok [(SQLVal.text "Widget", SQLVal.real ⟨1200, 0⟩)] ∧
    (([(SQLVal.text "Widget", SQLVal.real ⟨1200, 0⟩)] :
        List (SQLVal × SQLVal)).length ≤ 1 ∧
      (∀ i : Nat, ∀ hi : i + 1 < ([(SQLVal.text "Widget", SQLVal.real ⟨1200, 0⟩)] :
          List (SQLVal × SQLVal)).length,
        SQLVal.le (([(SQLVal.text "Widget", SQLVal.real ⟨1200, 0⟩)] :
            List (SQLVal × SQLVal)).get ⟨i + 1, hi⟩).2
          (([(SQLVal.text "Widget", SQLVal.real ⟨1200, 0⟩)] :
            List (SQLVal × SQLVal)).get ⟨i, by omega⟩).2 = true) ∧
      (∀ db2 : DB, get_top_revenue_generating_products db2 =
        get_top_revenue_generating_products db2 10)) :=
  ⟨rfl, c2_sales_top_n
    [("data", ⟨["Title", "Commission_Earned"],
      [[SQLVal.text "Widget", SQLVal.real ⟨1200, 0⟩],
       [SQLVal.text "Gadget", SQLVal.real ⟨3005, 1⟩]]⟩)] 1
    [(SQLVal.text "Widget", SQLVal.real ⟨1200, 0⟩)] rfl⟩

theorem c3_header_and_stream_witness :
    get_csv_files (some [⟨"a.csv", [["Title"], ["W"]]⟩, ⟨"b.csv", [["Title"], ["G"]]⟩]) =
      ⟨"a.csv", [["Title"], ["W"]]⟩ :: [⟨"b.csv", [["Title"], ["G"]]⟩] ∧
    (⟨"a.csv", [["Title"], ["W"]]⟩ : CSVFile).rows = ["Title"] :: [["W"]] ∧
    (get_combined_csv_file
        (some [⟨"a.csv", [["Title"], ["W"]]⟩, ⟨"b.csv", [["Title"], ["G"]]⟩]) =
      ["Title"] :: ([["W"]] ++
        (([⟨"b.csv", [["Title"], ["G"]]⟩] : List CSVFile).map
          (fun g => g.rows)).flatten) ∧
      ∀ db db2 : DB, import_csv_to_sqlite db
          (some [⟨"a.csv", [["Title"], ["W"]]⟩, ⟨"b.csv", [["Title"], ["G"]]⟩]) =
          (db2, none) →
        ∃ t : Table, dbLookup db2 "data" = some t ∧
          t.cols = (["Title"] : Row).map convert_header_name ∧
          t.rows.length = ([["W"]] : List Row).length +
            ((([⟨"b.csv", [["Title"], ["G"]]⟩] : List CSVFile).map
              (fun g => g.rows)).flatten).length) :=
  ⟨rfl, rfl, c3_header_and_stream
    (some [⟨"a.csv", [["Title"], ["W"]]⟩, ⟨"b.csv", [["Title"], ["G"]]⟩])
    ⟨"a.csv", [["Title"], ["W"]]⟩ [⟨"b.csv", [["Title"], ["G"]]⟩]
    ["Title"] [["W"]] rfl rfl⟩

theorem c4_coercion_idempotent_witness :
    convert_dollar_amount_to_float
      [("data", ⟨["Commission_Earned", "Sales"],
        [[SQLVal.text "$1,200.00", SQLVal.text "300.50"]]⟩)] =
      ([("data", ⟨["Commission_Earned", "Sales"],
        [[SQLVal.real ⟨1200, 0⟩, SQLVal.real ⟨3005, 1⟩]]⟩)], none) ∧
    convert_dollar_amount_to_float
      [("data", ⟨["Commission_Earned", "Sales"],
        [[SQLVal.real ⟨1200, 0⟩, SQLVal.real ⟨3005, 1⟩]]⟩)] =
      ([("data", ⟨["Commission_Earned", "Sales"],
        [[SQLVal.real ⟨1200, 0⟩, SQLVal.real ⟨3005, 1⟩]]⟩)], none) :=
  ⟨rfl, c4_coercion_idempotent
    [("data", ⟨["Commission_Earned", "Sales"],
      [[SQLVal.text "$1,200.00", SQLVal.text "300.50"]]⟩)]
    [("data", ⟨["Commission_Earned", "Sales"],
      [[SQLVal.real ⟨1200, 0⟩, SQLVal.real ⟨3005, 1⟩]]⟩)] rfl⟩

theorem c5_cast_never_fails_witness :
    dbLookup [("data", ⟨["Commission_Earned", "Sales"],
      [[SQLVal.text "xyz$", SQLVal.text "2"]]⟩)] "data" =
      some ⟨["Commission_Earned", "Sales"], [[SQLVal.text "xyz$", SQLVal.text "2"]]⟩ ∧
    "Commission_Earned" ∈ (⟨["Commission_Earned", "Sales"],
      [[SQLVal.text "xyz$", SQLVal.text "2"]]⟩ : Table).cols ∧
    "Sales" ∈ (⟨["Commission_Earned", "Sales"],
      [[SQLVal.text "xyz$", SQLVal.text "2"]]⟩ : Table).cols ∧
    (convert_dollar_amount_to_float [("data", ⟨["Commission_Earned", "Sales"],
      [[SQLVal.text "xyz$", SQLVal.text "2"]]⟩)]).2 = none :=
  ⟨rfl, by decide, by decide, c5_cast_never_fails
    [("data", ⟨["Commission_Earned", "Sales"],
      [[SQLVal.text "xyz$", SQLVal.text "2"]]⟩)]
    ⟨["Commission_Earned", "Sales"], [[SQLVal.text "xyz$", SQLVal.text "2"]]⟩
    rfl (by decide) (by decide)⟩

theorem c6_reimport_fails_witness :
    get_combined_csv_file (some [⟨"a.csv", [["Title"], ["W"]]⟩]) =
      ["Title"] :: [["W"]] ∧
    (["Title"] : Row).map convert_header_name ≠ [] ∧
    dbLookup [("data", ⟨["Title"], [[SQLVal.text "old"]]⟩)] "data" =
      some ⟨["Title"], [[SQLVal.text "old"]]⟩ ∧
    import_csv_to_sqlite [("data", ⟨["Title"], [[SQLVal.text "old"]]⟩)]
      (some [⟨"a.csv", [["Title"], ["W"]]⟩]) =
      ([("data", ⟨["Title"], [[SQLVal.text "old"]]⟩)],
        some "table data already exists") :=
  ⟨rfl, by decide, rfl, c6_reimport_fails
    [("data", ⟨["Title"], [[SQLVal.text "old"]]⟩)]
    (some [⟨"a.csv", [["Title"], ["W"]]⟩])
    ⟨["Title"], [[SQLVal.text "old"]]⟩ ["Title"] [["W"]] rfl (by decide) rfl⟩

theorem c9_count_and_frame_witness :
    import_csv_to_sqlite [] (some [⟨"a.csv",
      [["Title", "Commission Earned", "Sales"],
       ["Widget", "$1,200.00", "300.50"]]⟩]) =
      ([("data", ⟨["Title", "Commission_Earned", "Sales"],
        [[SQLVal.text "Widget", SQLVal.real ⟨1200, 0⟩, SQLVal.real ⟨3005, 1⟩]]⟩)],
        none) ∧
    (∃ t : Table,
      dbLookup [("data", ⟨["Title", "Commission_Earned", "Sales"],
        [[SQLVal.text "Widget", SQLVal.real ⟨1200, 0⟩,
          SQLVal.real ⟨3005, 1⟩]]⟩)] "data" = some t ∧
      t.rows.length + 1 = (print_csv (some [⟨"a.csv",
        [["Title", "Commission Earned", "Sales"],
         ["Widget", "$1,200.00", "300.50"]]⟩])).length ∧
      ∀ (i : Nat) (r : Row),
        ((print_csv (some [⟨"a.csv",
          [["Title", "Commission Earned", "Sales"],
           ["Widget", "$1,200.00", "300.50"]]⟩])).tail)[i]? = some r →
        ∃ vs : List SQLVal, t.rows[i]? = some vs ∧
          ∀ (j : Nat) (name : String), t.cols[j]? = some name →
            name ≠ "Commission_Earned" → name ≠ "Sales" →
            vs[j]? = r[j]?.map SQLVal.text) :=
  ⟨rfl, c9_count_and_frame []
    [("data", ⟨["Title", "Commission_Earned", "Sales"],
      [[SQLVal.text "Widget", SQLVal.real ⟨1200, 0⟩, SQLVal.real ⟨3005, 1⟩]]⟩)]
    (some [⟨"a.csv", [["Title", "Commission Earned", "Sales"],
      ["Widget", "$1,200.00", "300.50"]]⟩]) rfl⟩

theorem c10_missing_designated_columns_witness :
    get_combined_csv_file (some [⟨"a.csv",
      [["Title", "Commission Earned"], ["Widget", "$1,200.00"]]⟩]) =
      ["Title", "Commission Earned"] :: [["Widget", "$1,200.00"]] ∧
    (["Title", "Commission Earned"] : Row).map convert_header_name ≠ [] ∧
    dbLookup [] "data" = none ∧
    (∀ r ∈ ([["Widget", "$1,200.00"]] : List Row),
      r.length = (["Title", "Commission Earned"] : Row).length) ∧
    (∀ x ∈ (["Title", "Commission Earned"] : Row).map convert_header_name,
      sqlNameEq x "Sales" = false) ∧
    ∃ e : String, import_csv_to_sqlite [] (some [⟨"a.csv",
        [["Title", "Commission Earned"], ["Widget", "$1,200.00"]]⟩]) =
      ([] ++ [("data", ⟨(["Title", "Commission Earned"] : Row).map convert_header_name,
        ([["Widget", "$1,200.00"]] : List Row).map (fun r => r.map SQLVal.text)⟩)],
        some e) :=
  ⟨rfl, by decide, rfl, by decide, by decide,
    c10_missing_designated_columns [] (some [⟨"a.csv",
      [["Title", "Commission Earned"], ["Widget", "$1,200.00"]]⟩])
      ["Title", "Commission Earned"] [["Widget", "$1,200.00"]]
      rfl (by decide) rfl (by decide) (Or.inr (by decide))⟩
